import Mathlib

/-!
Shallow embedding of the PM internship recommender backend
(backend/recommender.py and the posting/embedding merge of backend/app.py).

Python records (internship dicts, match_details dicts) are modelled as
ordered association lists over a value type `Val`; numeric scores are exact
rationals (the Python code uses IEEE floats; the decimal literals 0.2, 0.25,
0.30, 0.15, 0.08, 0.4, 0.6 are modelled by the exact rationals they denote).
The embedding provider and the cosine-similarity routine are external
collaborators: they are passed in as an `Env` of functions returning
`Option`, `none` standing for a raised exception.
-/

namespace PMRec

/-! ## Python string primitives, modelled over the character list
(Lean's own String.toLower / trim / splitOn are loop- or position-based and
do not reduce well in the kernel; these list versions carry the same
semantics for the operations the source uses). -/

/-- Python s.lower() (ASCII case folding, which covers this catalog). -/
def pyLower (s : String) : String := String.mk (s.toList.map Char.toLower)

/-- Python s.strip(): drop leading and trailing whitespace. -/
def pyStrip (s : String) : String :=
  String.mk (((s.toList.dropWhile Char.isWhitespace).reverse.dropWhile
    Char.isWhitespace).reverse)

/-- Python s[:n]: the first n characters. -/
def pyTake (n : ℕ) (s : String) : String := String.mk (s.toList.take n)

/-- Python s.replace(old, new) for one-character patterns. -/
def pyReplace (old new : Char) (s : String) : String :=
  String.mk (s.toList.map (fun c => if c = old then new else c))

/-- Python s.split(sep) for a one-character separator: every occurrence
splits, empty segments are kept. -/
def splitCharAux (sep : Char) : List Char → List (List Char)
  | [] => [[]]
  | c :: t =>
    let r := splitCharAux sep t
    if c = sep then [] :: r
    else
      match r with
      | h :: t2 => (c :: h) :: t2
      | [] => [[c]]

def pySplit (sep : Char) (s : String) : List String :=
  (splitCharAux sep s.toList).map String.mk

/-- Python s.split() with no argument: split on whitespace runs, no empty
tokens. -/
def splitPredAux (p : Char → Bool) : List Char → List (List Char)
  | [] => [[]]
  | c :: t =>
    let r := splitPredAux p t
    if p c then [] :: r
    else
      match r with
      | h :: t2 => (c :: h) :: t2
      | [] => [[c]]

def pySplitWs (s : String) : List String :=
  ((splitPredAux Char.isWhitespace s.toList).map String.mk).filter
    (fun t => t ≠ "")

/-- A Python value as it appears in the internship records: a string, a
number, a boolean, an embedding vector (list of floats), a nested dict
(used for match_details), or None.  String conversion of non-string,
non-bool values abstracts Python's repr (the repository only stores
strings, vectors and the dicts/numbers this file builds itself). -/
inductive Val where
  | vStr (s : String)
  | vNum (q : ℚ)
  | vBool (b : Bool)
  | vVec (v : List ℚ)
  | vDict (d : List (String × Val))
  | vNone

/-- An ordered Python dict with string keys, as an association list
(Python dicts preserve insertion order; assignment to an existing key
keeps its position, a new key is appended). -/
abbrev Dict := List (String × Val)

/-- Python d.get(k): the value at the first (only) occurrence of k. -/
def getVal : Dict → String → Option Val
  | [], _ => none
  | p :: t, k => if p.1 = k then some p.2 else getVal t k

/-- Python k in d. -/
def hasKeyD : Dict → String → Bool
  | [], _ => false
  | p :: t, k => p.1 = k || hasKeyD t k

/-- Python d[k] = v: overwrite in place if the key exists, else append. -/
def setVal (d : Dict) (k : String) (v : Val) : Dict :=
  if hasKeyD d k then d.map (fun p => if p.1 = k then (k, v) else p)
  else d ++ [(k, v)]

/-- Python del d[k] (total: no-op when the key is absent; the source only
deletes after an `if k in d` check). -/
def eraseVal (d : Dict) (k : String) : Dict :=
  d.filter (fun p => p.1 ≠ k)

/-- Python truthiness of a value. -/
def truthy : Val → Bool
  | .vStr s => s ≠ ""
  | .vNum q => q ≠ 0
  | .vBool b => b
  | .vVec v => ¬ v.isEmpty
  | .vDict d => ¬ d.isEmpty
  | .vNone => false

/-- Python truthiness of d.get(k) (a missing key is falsy None). -/
def truthyO : Option Val → Bool
  | some v => truthy v
  | none => false

/-- Python str(v) for the values the repository actually keys and prints:
identity on strings; other shapes are abstracted (see `Val`). -/
def pyStr : Val → String
  | .vStr s => s
  | .vNum q => toString q
  | .vBool b => if b then "True" else "False"
  | .vVec _ => ""
  | .vDict _ => ""
  | .vNone => "None"

/-- Python internship.get(k, dflt) read as a string (str() applied where the
source interpolates the value into an f-string). -/
def getStrD (d : Dict) (k : String) (dflt : String) : String :=
  match getVal d k with
  | some v => pyStr v
  | none => dflt

/-- Python np.array(internship.get("embedding", [])): the stored vector, or
[] when the key is absent (a non-vector value is treated as absent). -/
def getVecD (d : Dict) (k : String) : List ℚ :=
  match getVal d k with
  | some (.vVec v) => v
  | _ => []

/-! ## TextNormalizer: posting identity and embedding text
(recommender.get_internship_id, recommender.get_internship_text) -/

/-- recommender.py get_internship_id: the explicit id if truthy (present and
non-empty), else title + "_" + org with spaces replaced by underscores,
lowercased. -/
def get_internship_id (d : Dict) : String :=
  if truthyO (getVal d "id") then pyStr ((getVal d "id").getD .vNone)
  else
    pyLower (pyReplace ' ' '_'
      ((getStrD d "title" "") ++ "_" ++ (getStrD d "org" "")))

/-- app.py api_recommend line 83: the inline merge key
internship.get('id') or internship.get('title','') + internship.get('org',''),
a Python value (the id is returned as stored when truthy; the fallback is the
bare concatenation, with no separator, no lowercasing, no space replacement). -/
def api_internship_key (d : Dict) : Val :=
  let idv := getVal d "id"
  if truthyO idv then idv.getD .vNone
  else .vStr ((getStrD d "title" "") ++ (getStrD d "org" ""))

/-- The embedding cache: posting identifier (a string, as JSON object keys
are strings) to embedding vector. -/
abbrev Cache := List (String × List ℚ)

def lookupC : Cache → String → Option (List ℚ)
  | [], _ => none
  | p :: t, k => if p.1 = k then some p.2 else lookupC t k

def hasKeyC : Cache → String → Bool
  | [], _ => false
  | p :: t, k => p.1 = k || hasKeyC t k

/-- Python cache[k] = v. -/
def insertC (c : Cache) (k : String) (v : List ℚ) : Cache :=
  if hasKeyC c k then c.map (fun p => if p.1 = k then (k, v) else p)
  else c ++ [(k, v)]

/-- app.py api_recommend lines 81-88: merge internships with their cached
embedding vectors; a posting whose inline key is not a key of the cache is
dropped (a non-string key never matches a string-keyed JSON dict). -/
def api_merge_with_embeddings (internships : List Dict) (cache : Cache) :
    List Dict :=
  internships.filterMap (fun d =>
    match api_internship_key d with
    | .vStr s =>
      match lookupC cache s with
      | some v => some (setVal d "embedding" (.vVec v))
      | none => none
    | _ => none)

/-- recommender.py get_internship_text: the labeled concatenation of posting
fields (description truncated to 200 characters), stripped.  A list-valued
sector is modelled by the joined string it would produce. -/
def get_internship_text (d : Dict) : String :=
  pyStrip
  ("Position: " ++ getStrD d "title" "" ++
   " Company: " ++ getStrD d "org" "" ++
   " Education Required: " ++ getStrD d "required_education" "" ++
   " Required Skills: " ++ getStrD d "skills" "" ++
   " Industry Sector: " ++ getStrD d "sector" "" ++
   " Work Location: " ++ getStrD d "location" "" ++
   " Description: " ++ pyTake 200 (getStrD d "description" ""))

/-! ## SkillRelevanceScorer (recommender.calculate_skill_relevance) -/

/-- Python a in b on strings: substring containment on the character list. -/
def isSubstrOf (a b : String) : Bool :=
  decide (a.toList <:+: b.toList)

/-- The token set of a comma-separated skill string:
set(s.strip().lower() for s in skills.split(",") if s.strip()), as a
duplicate-free list (the counts below are order-independent, so a list
models the Python set faithfully). -/
def skillTokens (s : String) : List String :=
  (((pySplit ',' s).map (fun t => pyLower (pyStrip t))).filter
    (fun t => t ≠ "")).dedup

/-- recommender.calculate_skill_relevance: (exact matches, partial matches,
relevance score).  Exact matches are the token-set intersection; the partial
count scans, for each user token, the posting tokens until one of length > 2
is a substring of the other (and the user token is unmatched, of
length > 2), counting each user token at most once. -/
def calculate_skill_relevance (user_skills internship_skills : String) :
    ℕ × ℕ × ℚ :=
  let user_skill_tokens := skillTokens user_skills
  let intern_skill_tokens := skillTokens internship_skills
  if user_skill_tokens.isEmpty ∨ intern_skill_tokens.isEmpty then (0, 0, 0)
  else
    let exact_matches := user_skill_tokens.inter intern_skill_tokens
    let part_matches :=
      user_skill_tokens.countP (fun u =>
        intern_skill_tokens.any (fun t =>
          u.length > 2 && t.length > 2 &&
          (isSubstrOf u t || isSubstrOf t u) && !(exact_matches.contains u)))
    let total_user_skills := user_skill_tokens.length
    let relevance_score : ℚ :=
      if total_user_skills > 0 then
        (exact_matches.length * 1 + part_matches * (6/10)) / total_user_skills
      else 0
    (exact_matches.length, part_matches, relevance_score)

/-! ## External collaborators (embedding provider, cosine similarity)
modelled as injected functions; `none` stands for a raised exception. -/

/-- The embedding provider and the similarity routine.  embed_query and
embed_documents may fail (network call); cos_sim may fail (shape error). -/
structure Env where
  embed_query : String → Option (List ℚ)
  embed_documents : List String → Option (List (List ℚ))
  cos_sim : List ℚ → List ℚ → Option ℚ

/-! ## RelevanceRanker (recommender.recommend) and
FallbackRanker (recommender.semantic_fallback_recommendation) -/

/-- The per-posting gate data collected in skill_relevance_data. -/
structure RelData where
  original_index : ℕ
  exact_matches : ℕ
  part_matches : ℕ
  relevance_score : ℚ

/-- One entry of final_scores: score, posting, match_details. -/
structure ScoreEntry where
  score : ℚ
  internship : Dict
  details : Dict

/-- Input normalization: str(x).strip() if x else "" (inputs are strings,
so falsy means empty). -/
def normStr (s : String) : String :=
  if s ≠ "" then pyStrip s else ""

/-- top_k = max(3, min(7, top_k)). -/
def clampTopK (k : ℤ) : ℤ := max 3 (min 7 k)

/-- One iteration of recommend's gate loop: run the scorer against the
user's skills and admit the posting (with its match data and original
index) when exact_matches > 0 or partial_matches >= 2 or
relevance_score > 0.2. -/
def gateStep (skills : String) (p : ℕ × Dict) : Option (Dict × RelData) :=
  let r := calculate_skill_relevance skills (getStrD p.2 "skills" "")
  if r.1 > 0 || r.2.1 ≥ 2 || r.2.2 > 1/5 then
    some (p.2, ⟨p.1, r.1, r.2.1, r.2.2⟩)
  else none

/-- recommend, step 1: the admission gate over the catalog in order. -/
def skillFilter (skills : String) (internships : List Dict) :
    List (Dict × RelData) :=
  internships.enum.filterMap (gateStep skills)

/-- The primary-path query string (skills 3x, education 2x, location). -/
def primaryQuery (education skills location : String) : String :=
  "Skills: " ++ skills ++ " " ++ skills ++ " " ++ skills ++
  ", Education: " ++ education ++ " " ++ education ++
  ", Position: " ++ location

/-- The fallback query string (skills 4x, education 2x, no location). -/
def fallbackQuery (education skills : String) : String :=
  "Skills: " ++ skills ++ " " ++ skills ++ " " ++ skills ++ " " ++ skills ++
  ", Education: " ++ education ++ " " ++ education

/-- recommend, step 2: semantic similarity of one posting against the query
vector; a missing or empty embedding and a failed similarity computation
both degrade to 0.0. -/
def semanticScore (env : Env) (q : List ℚ) (d : Dict) : ℚ :=
  let doc_emb := getVecD d "embedding"
  if doc_emb.isEmpty then 0
  else
    match env.cos_sim q doc_emb with
    | some sim => sim
    | none => 0

/-- Education boost test (both sides already lowercased): both non-empty and
equal or one a substring of the other. -/
def eduMatch (req_edu user_edu : String) : Bool :=
  req_edu ≠ "" && user_edu ≠ "" &&
    (req_edu = user_edu || isSubstrOf req_edu user_edu ||
     isSubstrOf user_edu req_edu)

/-- Location boost test (both sides already lowercased). -/
def locMatch (user_loc intern_loc : String) : Bool :=
  user_loc ≠ "" && intern_loc ≠ "" &&
    (user_loc = intern_loc || isSubstrOf "remote" intern_loc ||
     user_loc = "remote" ||
     (pySplitWs user_loc).any (fun loc => isSubstrOf loc intern_loc) ||
     (pySplitWs intern_loc).any (fun loc => isSubstrOf loc user_loc))

/-- recommend, step 3: one boosted entry (education/skill/location boosts on
top of the semantic base score) with its match_details dict. -/
def boostedEntry (education location : String) (base : ℚ) (d : Dict)
    (rd : RelData) : ScoreEntry :=
  let user_edu := pyLower education
  let user_loc := pyLower location
  let req_edu := pyLower (getStrD d "required_education" "")
  let edu_match := eduMatch req_edu user_edu
  let intern_loc := pyLower (getStrD d "location" "")
  let location_match := locMatch user_loc intern_loc
  let boost : ℚ :=
    (if edu_match then 1/4 else 0) +
    (3/10) * rd.exact_matches +
    (3/20) * (min rd.part_matches 3) +
    (if location_match then 2/25 else 0)
  { score := base + boost
    internship := d
    details :=
      [("exact_skill_matches", .vNum rd.exact_matches),
       ("partial_skill_matches", .vNum rd.part_matches),
       ("skill_relevance_score", .vNum rd.relevance_score),
       ("education_match", .vBool edu_match),
       ("location_match", .vBool location_match),
       ("semantic_similarity", .vNum base)] }

/-- The scored (unsorted) primary-path entries for the admitted postings:
semantic scores first, then the boost pass (the two source loops are
index-aligned). -/
def primaryEntries (env : Env) (q : List ℚ) (education location : String)
    (sr : List (Dict × RelData)) : List ScoreEntry :=
  let semantic_scores := sr.map (fun p => semanticScore env q p.1)
  (sr.zip semantic_scores).map (fun p =>
    boostedEntry education location p.2 p.1.1 p.1.2)

/-- Python list.sort(key=score, reverse=True): a may stay before b exactly
when a.score >= b.score; list.sort is stable, modelled here by the stable
insertion sort. -/
def scoreRel (a b : ScoreEntry) : Prop := b.score ≤ a.score

instance : DecidableRel scoreRel := fun a b =>
  inferInstanceAs (Decidable (b.score ≤ a.score))

instance : IsTotal ScoreEntry scoreRel :=
  ⟨fun a b => le_total b.score a.score⟩

instance : IsTrans ScoreEntry scoreRel :=
  ⟨fun _ _ _ h1 h2 => le_trans h2 h1⟩

/-- recommend, step 4 result assembly: copy the posting, attach score and
match_details, strip the embedding. -/
def finalizeEntry (e : ScoreEntry) : Dict :=
  eraseVal
    (setVal (setVal e.internship "score" (.vNum e.score))
      "match_details" (.vDict e.details))
    "embedding"

/-- The fallback match_details dict: skill/education/location fields
zeroed/false, semantic similarity recorded, fallback flag set. -/
def fallbackDetails (sim : ℚ) : Dict :=
  [("exact_skill_matches", .vNum 0),
   ("partial_skill_matches", .vNum 0),
   ("skill_relevance_score", .vNum 0),
   ("education_match", .vBool false),
   ("location_match", .vBool false),
   ("semantic_similarity", .vNum sim),
   ("fallback_recommendation", .vBool true)]

/-- Fallback survivors: postings with a non-empty embedding whose similarity
computes without error and exceeds 0.4, paired with that similarity, in
catalog order (failed similarity computations are skipped, not zeroed). -/
def fallbackSurvivors (env : Env) (q : List ℚ) (internships : List Dict) :
    List (ℚ × Dict) :=
  internships.filterMap (fun d =>
    let doc_emb := getVecD d "embedding"
    if doc_emb.isEmpty then none
    else
      match env.cos_sim q doc_emb with
      | none => none
      | some sim => if sim > 2/5 then some (sim, d) else none)

/-- The ascending comparison on (index, score) pairs used by argsort. -/
def idxRel (a b : ℕ × ℚ) : Prop := a.2 ≤ b.2

instance : DecidableRel idxRel := fun a b =>
  inferInstanceAs (Decidable (a.2 ≤ b.2))

instance : IsTotal (ℕ × ℚ) idxRel := ⟨fun a b => le_total a.2 b.2⟩

instance : IsTrans (ℕ × ℚ) idxRel := ⟨fun _ _ _ h1 h2 => le_trans h1 h2⟩

/-- np.argsort on the score list, ascending.  numpy's default sort leaves
the order of equal elements unspecified; this model determinizes it with a
stable sort (any tie order satisfies the properties proved below). -/
def argsortAsc (xs : List ℚ) : List ℕ :=
  (List.insertionSort idxRel xs.enum).map (fun p => p.1)

/-- Fallback result assembly for one (similarity, posting) pair. -/
def fallbackFinalize (p : ℚ × Dict) : Dict :=
  eraseVal
    (setVal (setVal p.2 "score" (.vNum p.1))
      "match_details" (.vDict (fallbackDetails p.1)))
    "embedding"

/-- recommender.semantic_fallback_recommendation: pure semantic ranking,
used when the gate admits nothing.  Embed the fallback query once (failure
gives the empty result); keep postings with similarity > 0.4; take the
min(top_k, survivors) highest similarities, descending
(idx_sorted = argsort(scores)[-top_k:][::-1]). -/
def semantic_fallback_recommendation (env : Env) (internships : List Dict)
    (education skills location : String) (top_k : ℤ) : List Dict :=
  match env.embed_query (fallbackQuery education skills) with
  | none => []
  | some q_emb =>
    let pairs := fallbackSurvivors env q_emb internships
    if pairs.isEmpty then []
    else
      let top_k := min top_k (pairs.length : ℤ)
      let scores := pairs.map (fun p => p.1)
      let idx_sorted :=
        ((argsortAsc scores).drop (pairs.length - top_k.toNat)).reverse
      idx_sorted.map (fun i => fallbackFinalize (pairs.getD i (0, [])))

/-- recommender.recommend: input validation and normalization, clamp top_k
to [3,7], gate by skill relevance, fall back when nothing is admitted,
re-clamp top_k to the admitted count, embed the query once (failure aborts
with an empty result), score, stable-sort descending, truncate, assemble. -/
def recommend (env : Env) (internships : List Dict)
    (education skills location : String) (top_k : ℤ) : List Dict :=
  if internships.isEmpty then []
  else
    let education := normStr education
    let skills := normStr skills
    let location := normStr location
    let top_k := clampTopK top_k
    let sr := skillFilter skills internships
    if sr.isEmpty then
      semantic_fallback_recommendation env internships education skills
        location top_k
    else
      let top_k := min top_k (sr.length : ℤ)
      match env.embed_query (primaryQuery education skills location) with
      | none => []
      | some q_emb =>
        let final_scores := primaryEntries env q_emb education location sr
        let sorted := List.insertionSort scoreRel final_scores
        (sorted.take top_k.toNat).map finalizeEntry

/-! ## VectorCache (recommender.precompute_doc_embeddings_new,
recommender.check_and_update_embeddings) -/

/-- The (id, text) batch of postings that still need an embedding: identity
not yet a key of the cache, embedding text non-empty.  Catalog order is
preserved so the returned vectors zip back onto the right identities. -/
def toCompute (internships : List Dict) (existing : Cache) :
    List (String × String) :=
  internships.filterMap (fun d =>
    let internship_id := get_internship_id d
    if hasKeyC existing internship_id then none
    else
      let text := get_internship_text d
      if text ≠ "" then some (internship_id, text) else none)

/-- recommender.precompute_doc_embeddings_new: compute embeddings for the
postings missing from the cache and merge them in; a provider failure
propagates (Except.error) and nothing is returned.  (If the provider
returned more vectors than requested Python would raise; the zip below
models the equal-length contract, see the C9 length hypothesis.) -/
def precompute_doc_embeddings_new (env : Env) (internships : List Dict)
    (existing_embeddings : Option Cache) : Except Unit Cache :=
  if internships.isEmpty then .ok (existing_embeddings.getD [])
  else
    let ex := existing_embeddings.getD []
    let todo := toCompute internships ex
    if todo.isEmpty then .ok ex
    else
      match env.embed_documents (todo.map (fun p => p.2)) with
      | none => .error ()
      | some new_embeddings =>
        .ok ((((todo.map (fun p => p.1)).zip new_embeddings)).foldl
          (fun c p => insertC c p.1 p.2) ex)

/-- What check_and_update_embeddings reads from disk, as one snapshot:
the catalog file's content hash (none when unreadable), the source-file
hash recorded in the embeddings file's metadata (none when the file or the
key is missing or unreadable), the loaded catalog ([] on error) and the
loaded on-disk cache ([] on error). -/
structure FSView where
  current_hash : Option String
  meta_hash : Option String
  catalog : List Dict
  stored : Cache

/-- recommender.check_and_update_embeddings over an FSView snapshot: return
the in-memory cache untouched when the hash is unchanged and both cached
values are present (is not None); otherwise reload, fill missing embeddings
(provider errors propagate), and report refreshed=true.  The best-effort
metadata save is file IO and not modelled. -/
def check_and_update_embeddings (env : Env) (fs : FSView)
    (cached_internships : Option (List Dict))
    (cached_embeddings : Option Cache) :
    Except Unit (List Dict × Cache × Bool) :=
  if fs.current_hash = fs.meta_hash ∧ cached_internships.isSome ∧
      cached_embeddings.isSome then
    .ok (cached_internships.getD [], cached_embeddings.getD [], false)
  else if fs.catalog.isEmpty then .ok ([], [], false)
  else
    match precompute_doc_embeddings_new env fs.catalog (some fs.stored) with
    | .error e => .error e
    | .ok updated_embeddings => .ok (fs.catalog, updated_embeddings, true)

/-! ## Shared lemmas about the dict model and the ranking pipeline -/

theorem getVal_map_overwrite (d : Dict) (k : String) (v : Val)
    (h : hasKeyD d k = true) :
    getVal (d.map (fun p => if p.1 = k then (k, v) else p)) k = some v := by
  induction d with
  | nil => simp [hasKeyD] at h
  | cons a t ih =>
    by_cases ha : a.1 = k
    · simp [getVal, ha]
    · simp only [hasKeyD, Bool.or_eq_true, decide_eq_true_eq] at h
      simp only [List.map_cons, if_neg ha, getVal, ha, if_false]
      exact ih (h.resolve_left ha)

theorem getVal_setVal_self (d : Dict) (k : String) (v : Val) :
    getVal (setVal d k v) k = some v := by
  unfold setVal
  by_cases h : hasKeyD d k = true
  · simp only [h, if_true]
    exact getVal_map_overwrite d k v h
  · simp only [h, if_false]
    induction d with
    | nil => simp [getVal]
    | cons a t ih =>
      simp only [hasKeyD, Bool.or_eq_true, decide_eq_true_eq] at h
      push_neg at h
      simp only [List.cons_append, getVal, h.1, if_false]
      exact ih (by simpa using h.2)

theorem map_overwrite_of_not_key (d : Dict) (k : String) (v : Val)
    (h : hasKeyD d k = false) :
    d.map (fun p => if p.1 = k then (k, v) else p) = d := by
  induction d with
  | nil => rfl
  | cons a t ih =>
    simp only [hasKeyD, Bool.or_eq_false_iff, decide_eq_false_iff_not] at h
    simp only [List.map_cons, if_neg h.1]
    rw [ih h.2]

theorem getVal_setVal_ne (d : Dict) (k k' : String) (v : Val) (h : k' ≠ k) :
    getVal (setVal d k v) k' = getVal d k' := by
  unfold setVal
  by_cases hk : hasKeyD d k = true
  · simp only [hk, if_true]
    induction d with
    | nil => simp
    | cons a t ih =>
      by_cases ha : a.1 = k
      · have hkk : ¬ (k = k') := fun hh => h hh.symm
        have ha' : ¬ (a.1 = k') := by rw [ha]; exact hkk
        simp only [List.map_cons, if_pos ha, getVal, hkk, ha', if_false]
        by_cases ht : hasKeyD t k = true
        · exact ih ht
        · rw [map_overwrite_of_not_key t k v (by simpa using ht)]
      · simp only [List.map_cons, if_neg ha, getVal]
        simp only [hasKeyD, Bool.or_eq_true, decide_eq_true_eq] at hk
        by_cases ha' : a.1 = k'
        · simp [ha']
        · simp only [ha', if_false]
          exact ih (hk.resolve_left ha)
  · simp only [hk, if_false]
    induction d with
    | nil => simp [getVal, Ne.symm h]
    | cons a t ih =>
      simp only [hasKeyD, Bool.or_eq_true, decide_eq_true_eq] at hk
      push_neg at hk
      simp only [List.cons_append, getVal]
      by_cases ha' : a.1 = k'
      · simp [ha']
      · simp only [ha', if_false]
        exact ih (by simpa using hk.2)

theorem getVal_eraseVal_ne (d : Dict) (k k' : String) (h : k' ≠ k) :
    getVal (eraseVal d k) k' = getVal d k' := by
  unfold eraseVal
  induction d with
  | nil => simp [getVal]
  | cons a t ih =>
    by_cases ha : a.1 = k
    · have ha' : ¬ (a.1 = k') := by rw [ha]; exact fun hh => h hh.symm
      rw [List.filter_cons_of_neg (by simpa using ha)]
      simp only [getVal, ha', if_false]
      exact ih
    · rw [List.filter_cons_of_pos (by simpa using ha)]
      simp only [getVal]
      by_cases ha' : a.1 = k'
      · simp [ha']
      · simp only [ha', if_false]
        exact ih

theorem getVal_eraseVal_self (d : Dict) (k : String) :
    getVal (eraseVal d k) k = none := by
  unfold eraseVal
  induction d with
  | nil => simp [getVal]
  | cons a t ih =>
    by_cases ha : a.1 = k
    · rw [List.filter_cons_of_neg (by simpa using ha)]
      exact ih
    · rw [List.filter_cons_of_pos (by simpa using ha)]
      simp only [getVal, ha, if_false]
      exact ih

/-- The length of a stable sort. -/
theorem length_insertionSort (r : α → α → Prop) [DecidableRel r] (l : List α) :
    (List.insertionSort r l).length = l.length :=
  (List.perm_insertionSort r l).length_eq

theorem zip_map_self (f : α → β) (l : List α) :
    l.zip (l.map f) = l.map (fun a => (a, f a)) := by
  induction l with
  | nil => rfl
  | cons a t ih => simp [ih]

/-- The scored primary-path entries, element by element. -/
theorem primaryEntries_eq (env : Env) (q : List ℚ) (education location : String)
    (sr : List (Dict × RelData)) :
    primaryEntries env q education location sr =
      sr.map (fun p =>
        boostedEntry education location (semanticScore env q p.1) p.1 p.2) := by
  simp only [primaryEntries]
  rw [zip_map_self, List.map_map]
  rfl

theorem primaryEntries_length (env : Env) (q : List ℚ)
    (education location : String) (sr : List (Dict × RelData)) :
    (primaryEntries env q education location sr).length = sr.length := by
  rw [primaryEntries_eq, List.length_map]

theorem argsortAsc_length (xs : List ℚ) : (argsortAsc xs).length = xs.length := by
  unfold argsortAsc
  rw [List.length_map, length_insertionSort, List.enum_length]

/-- A provider environment for concrete witnesses: every text embeds to [1]
and every similarity computes to 1/2. -/
def envW : Env where
  embed_query := fun _ => some [1]
  embed_documents := fun ds => some (ds.map (fun _ => [1]))
  cos_sim := fun _ _ => some (1/2)

/-- A provider environment whose calls always fail. -/
def envFail : Env where
  embed_query := fun _ => none
  embed_documents := fun _ => none
  cos_sim := fun _ _ => none

/-- A posting with no explicit id (the identity falls back to title/org). -/
def pNoId : Dict := [("title", Val.vStr "Data Analyst"), ("org", Val.vStr "Acme Corp")]

/-- The cache produced by a fill for pNoId: keyed by get_internship_id. -/
def cNoId : Cache := [("data_analyst_acme_corp", [1])]

/-- A posting with one skill and an embedding, admitted by the gate against
user skills "python". -/
def pPython : Dict := [("skills", Val.vStr "python"), ("embedding", Val.vVec [1])]

/-! ## C1: posting identity and the API merge key -/

/-- C1 (code bug): the identity operation derives
"data_analyst_acme_corp" for a posting with no explicit id, but the API
boundary's inline merge key is "Data AnalystAcme Corp" (no separator, no
lowercasing, no space replacement), so the merge drops the posting even
though its vector is in the cache under its fill-time identity. -/
theorem c1_identity_key_divergence :
    get_internship_id pNoId = "data_analyst_acme_corp" ∧
    api_internship_key pNoId = .vStr "Data AnalystAcme Corp" ∧
    Val.vStr (get_internship_id pNoId) ≠ api_internship_key pNoId ∧
    api_merge_with_embeddings [pNoId] cNoId = [] := by
  refine ⟨by rfl, by rfl, ?_, by rfl⟩
  intro h
  rw [show get_internship_id pNoId = "data_analyst_acme_corp" from rfl] at h
  rw [show api_internship_key pNoId = .vStr "Data AnalystAcme Corp" from rfl] at h
  injection h with h'
  exact absurd h' (by decide)

/-! ## C2: top_k clamping and the number of returned recommendations -/

/-- C2 counterexample: with a single eligible posting the call returns one
recommendation, so the claimed lower bound 3 <= returned_top_k fails. -/
theorem c2_counterexample_single_posting :
    (recommend envW [pPython] "" "python" "" 5).length = 1 ∧
    ¬ (3 ≤ (recommend envW [pPython] "" "python" "" 5).length) := by
  constructor
  · rfl
  · intro h
    rw [show (recommend envW [pPython] "" "python" "" 5).length = 1 from rfl] at h
    omega

/-- The number of postings eligible on the path the call takes: the
gate-admitted count on the primary path, the fallback survivor count when
the gate admits nothing. -/
def eligibleCount (env : Env) (internships : List Dict)
    (education skills : String) : ℕ :=
  let s := normStr skills
  let sr := skillFilter s internships
  if sr.isEmpty then
    match env.embed_query (fallbackQuery (normStr education) s) with
    | none => 0
    | some q => (fallbackSurvivors env q internships).length
  else sr.length

theorem fallback_embed_fail (env : Env) (internships : List Dict)
    (education skills location : String) (top_k : ℤ)
    (hq : env.embed_query (fallbackQuery education skills) = none) :
    semantic_fallback_recommendation env internships education skills
      location top_k = [] := by
  unfold semantic_fallback_recommendation
  rw [hq]

theorem fallback_length (env : Env) (internships : List Dict)
    (education skills location : String) (top_k : ℤ) (q : List ℚ)
    (hq : env.embed_query (fallbackQuery education skills) = some q) :
    (semantic_fallback_recommendation env internships education skills
        location top_k).length =
      if (fallbackSurvivors env q internships).isEmpty then 0
      else (min top_k ((fallbackSurvivors env q internships).length : ℤ)).toNat := by
  unfold semantic_fallback_recommendation
  rw [hq]
  by_cases hp : (fallbackSurvivors env q internships).isEmpty
  · simp [hp]
  · simp only [hp, Bool.false_eq_true, if_false]
    rw [List.length_map, List.length_reverse, List.length_drop, argsortAsc_length,
      List.length_map]
    have ht : (min top_k ((fallbackSurvivors env q internships).length : ℤ)).toNat ≤
        (fallbackSurvivors env q internships).length := by
      rw [Int.toNat_le]
      exact min_le_right _ _
    omega

theorem clampTopK_bounds (k : ℤ) : 3 ≤ clampTopK k ∧ clampTopK k ≤ 7 :=
  ⟨le_max_left _ _, max_le (by norm_num) (min_le_left _ _)⟩

/-- C2 (amended): top_k is clamped to [3, 7] regardless of the caller's
value, and the returned count is at most the clamped top_k, at most the
number of eligible postings on the path taken, and at most 7; the
unconditional lower bound 3 of the original claim fails when fewer than 3
postings are eligible (see the counterexample). -/
theorem c2_clamp_and_count_bounds :
    ∀ (env : Env) (internships : List Dict)
      (education skills location : String) (top_k : ℤ),
    3 ≤ clampTopK top_k ∧ clampTopK top_k ≤ 7 ∧
    (recommend env internships education skills location top_k).length ≤
      (clampTopK top_k).toNat ∧
    (recommend env internships education skills location top_k).length ≤
      eligibleCount env internships education skills ∧
    (recommend env internships education skills location top_k).length ≤ 7 := by
  intro env ins e s l k
  have hc := clampTopK_bounds k
  have key : (recommend env ins e s l k).length ≤ (clampTopK k).toNat ∧
      (recommend env ins e s l k).length ≤ eligibleCount env ins e s := by
    unfold recommend eligibleCount
    by_cases hins : ins.isEmpty
    · simp [hins]
    · simp only [hins, Bool.false_eq_true, if_false]
      by_cases hsr : (skillFilter (normStr s) ins).isEmpty
      · simp only [hsr, if_true]
        cases hq : env.embed_query (fallbackQuery (normStr e) (normStr s)) with
        | none =>
          rw [fallback_embed_fail env ins (normStr e) (normStr s) (normStr l)
            (clampTopK k) hq]
          simp
        | some q =>
          rw [fallback_length env ins (normStr e) (normStr s) (normStr l)
            (clampTopK k) q hq]
          by_cases hp : (fallbackSurvivors env q ins).isEmpty
          · simp [hp]
          · simp only [hp, Bool.false_eq_true, if_false]
            constructor
            · exact Int.toNat_le_toNat (min_le_left _ _)
            · rw [Int.toNat_le]
              exact min_le_right _ _
      · simp only [hsr, Bool.false_eq_true, if_false]
        cases hq : env.embed_query (primaryQuery (normStr e) (normStr s) (normStr l)) with
        | none => simp
        | some q =>
          simp only [List.length_map, List.length_take, length_insertionSort,
            primaryEntries_length]
          constructor
          · exact le_trans (min_le_left _ _) (Int.toNat_le_toNat (min_le_left _ _))
          · exact min_le_right _ _
  exact ⟨hc.1, hc.2, key.1, key.2, le_trans key.1 (by rw [Int.toNat_le]; exact_mod_cast hc.2)⟩

/-! ## C4: the skill-relevance scorer -/

/-- C4: calculate_skill_relevance tokenizes both sides (comma split, trim,
lowercase, drop empties), returns (0, 0, 0.0) when either token set is
empty, and otherwise returns the intersection size as exactCount, as
partialCount the number of user tokens of length > 2 outside the
intersection having some posting token of length > 2 with substring overlap
in either direction (each user token counted at most once), and the
uncapped score (exactCount*1.0 + partialCount*0.6) / |userTokens|. -/
theorem c4_skill_relevance_characterization
    (user_skills internship_skills : String) :
    calculate_skill_relevance user_skills internship_skills =
      (let u := skillTokens user_skills
       let t := skillTokens internship_skills
       if u.isEmpty ∨ t.isEmpty then ((0, 0, 0) : ℕ × ℕ × ℚ)
       else
         let ex := u.inter t
         let pc := (u.filter (fun x => decide (2 < x.length ∧ x ∉ ex ∧
             ∃ y ∈ t, 2 < y.length ∧
               (x.toList <:+: y.toList ∨ y.toList <:+: x.toList)))).length
         (ex.length, pc,
           ((ex.length : ℚ) * 1 + (pc : ℚ) * (6/10)) / (u.length : ℚ))) := by
  unfold calculate_skill_relevance
  dsimp only
  by_cases h : (skillTokens user_skills).isEmpty ∨
      (skillTokens internship_skills).isEmpty
  · rw [if_pos h, if_pos h]
  · rw [if_neg h, if_neg h]
    have hu : (skillTokens user_skills) ≠ [] := by
      intro hh
      exact h (Or.inl (by simp [hh]))
    have hlen : 0 < (skillTokens user_skills).length := List.length_pos.mpr hu
    rw [if_pos hlen]
    rw [List.countP_eq_length_filter]
    rw [List.filter_congr (fun x _ => ?_)]
    rw [Bool.eq_iff_iff]
    simp only [List.any_eq_true, Bool.and_eq_true, Bool.or_eq_true,
      Bool.not_eq_true', decide_eq_true_eq, isSubstrOf, List.contains,
      List.elem_eq_mem, decide_eq_false_iff_not]
    constructor
    · rintro ⟨y, hy, ⟨⟨hx2, hy2⟩, hsub⟩, hnotex⟩
      exact ⟨hx2, hnotex, y, hy, hy2, hsub⟩
    · rintro ⟨hx2, hnotex, y, hy, hy2, hsub⟩
      exact ⟨y, hy, ⟨⟨hx2, hy2⟩, hsub⟩, hnotex⟩

/-! ## C3: the admission gate and the fallback switch -/

/-- The gate predicate of recommend step 1: at least one exact match, or at
least two partial matches, or relevance score above 0.2. -/
def gatePass (skills : String) (d : Dict) : Bool :=
  let r := calculate_skill_relevance skills (getStrD d "skills" "")
  r.1 > 0 || r.2.1 ≥ 2 || r.2.2 > 1/5

/-- gateStep admits exactly when the gate predicate holds. -/
theorem gateStep_eq (skills : String) (n : ℕ) (d : Dict) :
    gateStep skills (n, d) =
      (if gatePass skills d = true then
        some (d, ⟨n, (calculate_skill_relevance skills (getStrD d "skills" "")).1,
          (calculate_skill_relevance skills (getStrD d "skills" "")).2.1,
          (calculate_skill_relevance skills (getStrD d "skills" "")).2.2⟩)
      else none) := rfl

/-- C3 part: the admitted postings are exactly the catalog's gate-passing
postings, in catalog order. -/
theorem skillFilter_map_fst (skills : String) (internships : List Dict) :
    (skillFilter skills internships).map Prod.fst =
      internships.filter (gatePass skills) := by
  unfold skillFilter
  rw [show internships.enum = List.enumFrom 0 internships from rfl]
  generalize 0 = n
  induction internships generalizing n with
  | nil => rfl
  | cons d t ih =>
    rw [show List.enumFrom n (d :: t) = (n, d) :: List.enumFrom (n + 1) t from rfl,
      List.filterMap_cons, List.filter_cons, gateStep_eq]
    by_cases hg : gatePass skills d = true
    · rw [if_pos hg, if_pos hg, List.map_cons, ih]
    · rw [if_neg hg, if_neg hg, ih]

/-- When nothing is admitted the call delegates to the fallback ranker
(with the normalized inputs and the clamped top_k). -/
theorem recommend_fallback_eq (env : Env) (ins : List Dict)
    (e s l : String) (k : ℤ) (hins : ins ≠ [])
    (hsr : skillFilter (normStr s) ins = []) :
    recommend env ins e s l k =
      semantic_fallback_recommendation env ins (normStr e) (normStr s)
        (normStr l) (clampTopK k) := by
  unfold recommend
  rw [if_neg (by simpa [List.isEmpty_iff] using hins)]
  simp only [hsr, List.isEmpty_nil, if_true]

/-- The primary path, written out: admitted entries scored, stable-sorted
descending, truncated, assembled. -/
theorem recommend_primary_eq (env : Env) (ins : List Dict)
    (e s l : String) (k : ℤ) (q : List ℚ)
    (hsr : skillFilter (normStr s) ins ≠ [])
    (hq : env.embed_query (primaryQuery (normStr e) (normStr s) (normStr l)) =
      some q) :
    recommend env ins e s l k =
      ((List.insertionSort scoreRel
          (primaryEntries env q (normStr e) (normStr l)
            (skillFilter (normStr s) ins))).take
        (min (clampTopK k) (((skillFilter (normStr s) ins).length : ℤ))).toNat).map
          finalizeEntry := by
  have hins : ins ≠ [] := fun h => hsr (by rw [h]; rfl)
  unfold recommend
  rw [if_neg (by simpa [List.isEmpty_iff] using hins)]
  simp only [(show (skillFilter (normStr s) ins).isEmpty = false by
    simpa [List.isEmpty_iff] using hsr), Bool.false_eq_true, if_false, hq]

/-- A failed query embedding on the primary path empties the whole call. -/
theorem recommend_primary_embed_fail (env : Env) (ins : List Dict)
    (e s l : String) (k : ℤ)
    (hsr : skillFilter (normStr s) ins ≠ [])
    (hq : env.embed_query (primaryQuery (normStr e) (normStr s) (normStr l)) =
      none) :
    recommend env ins e s l k = [] := by
  have hins : ins ≠ [] := fun h => hsr (by rw [h]; rfl)
  unfold recommend
  rw [if_neg (by simpa [List.isEmpty_iff] using hins)]
  simp only [(show (skillFilter (normStr s) ins).isEmpty = false by
    simpa [List.isEmpty_iff] using hsr), Bool.false_eq_true, if_false, hq]

/-- C3: the gate admits exactly the postings with exactCount > 0 or
partialCount >= 2 or relevanceScore > 0.2, preserving catalog order; when
nothing is admitted the call delegates to the fallback ranker; when
something is admitted, every returned recommendation is assembled from a
gate-passing posting, so a rejected posting never appears in the
primary-path result. -/
theorem c3_gate_admission_and_fallback_switch :
    ∀ (env : Env) (ins : List Dict) (e s l : String) (k : ℤ),
    ((skillFilter (normStr s) ins).map Prod.fst =
      ins.filter (gatePass (normStr s))) ∧
    (ins ≠ [] → skillFilter (normStr s) ins = [] →
      recommend env ins e s l k =
        semantic_fallback_recommendation env ins (normStr e) (normStr s)
          (normStr l) (clampTopK k)) ∧
    (skillFilter (normStr s) ins ≠ [] →
      ∀ r ∈ recommend env ins e s l k, ∃ d, d ∈ ins ∧
        gatePass (normStr s) d = true ∧
        ∃ en : ScoreEntry, en.internship = d ∧ r = finalizeEntry en) := by
  intro env ins e s l k
  refine ⟨skillFilter_map_fst (normStr s) ins,
    recommend_fallback_eq env ins e s l k, ?_⟩
  intro hsr r hr
  cases hq : env.embed_query (primaryQuery (normStr e) (normStr s) (normStr l)) with
  | none =>
    rw [recommend_primary_embed_fail env ins e s l k hsr hq] at hr
    simp at hr
  | some q =>
    rw [recommend_primary_eq env ins e s l k q hsr hq] at hr
    obtain ⟨en, hen, rfl⟩ := List.mem_map.mp hr
    have h1 := List.mem_of_mem_take hen
    have h2 : en ∈ primaryEntries env q (normStr e) (normStr l)
        (skillFilter (normStr s) ins) :=
      ((List.perm_insertionSort _ _).mem_iff).mp h1
    rw [primaryEntries_eq] at h2
    obtain ⟨p, hp, rfl⟩ := List.mem_map.mp h2
    have hd : p.1 ∈ (skillFilter (normStr s) ins).map Prod.fst :=
      List.mem_map.mpr ⟨p, hp, rfl⟩
    rw [skillFilter_map_fst] at hd
    obtain ⟨hmem, hgate⟩ := List.mem_filter.mp hd
    exact ⟨p.1, hmem, hgate,
      boostedEntry (normStr e) (normStr l) (semanticScore env q p.1) p.1 p.2,
      rfl, rfl⟩

/-! ## C7: provider failures abort the operation -/

/-- C7: a failed query embedding on the primary ranking path yields an
empty result for the entire call, and a provider error during cache fill
propagates to the caller (Except.error) with no partially merged cache
returned. -/
theorem c7_provider_failure_aborts :
    ∀ (env : Env) (ins : List Dict) (e s l : String) (k : ℤ)
      (ex : Option Cache),
    (skillFilter (normStr s) ins ≠ [] →
      env.embed_query (primaryQuery (normStr e) (normStr s) (normStr l)) =
        none →
      recommend env ins e s l k = []) ∧
    (toCompute ins (ex.getD []) ≠ [] →
      env.embed_documents ((toCompute ins (ex.getD [])).map (fun p => p.2)) =
        none →
      precompute_doc_embeddings_new env ins ex = .error ()) := by
  intro env ins e s l k ex
  constructor
  · intro hsr hq
    exact recommend_primary_embed_fail env ins e s l k hsr hq
  · intro htodo hd
    have hins : ins ≠ [] := by
      intro h
      subst h
      exact htodo rfl
    unfold precompute_doc_embeddings_new
    rw [if_neg (by simpa [List.isEmpty_iff] using hins)]
    simp only [(show (toCompute ins (ex.getD [])).isEmpty = false by
      simpa [List.isEmpty_iff] using htodo), Bool.false_eq_true, if_false, hd]

/-! ## C9: the cache fill never recomputes and is idempotent -/

/-- The overwrite map of insertC preserves the key set. -/
theorem hasKeyC_map_overwrite (c : Cache) (k k' : String) (v : List ℚ) :
    hasKeyC (c.map (fun p => if p.1 = k then (k, v) else p)) k' =
      hasKeyC c k' := by
  induction c with
  | nil => rfl
  | cons a t ih =>
    by_cases ha : a.1 = k
    · rw [List.map_cons, if_pos ha]
      simp only [hasKeyC, ih, ha]
    · rw [List.map_cons, if_neg ha]
      simp only [hasKeyC, ih]

theorem hasKeyC_append (c d : Cache) (k : String) :
    hasKeyC (c ++ d) k = (hasKeyC c k || hasKeyC d k) := by
  induction c with
  | nil => simp [hasKeyC]
  | cons a t ih => simp [hasKeyC, ih, Bool.or_assoc]

theorem hasKeyC_insertC_self (c : Cache) (k : String) (v : List ℚ) :
    hasKeyC (insertC c k v) k = true := by
  unfold insertC
  by_cases h : hasKeyC c k = true
  · rw [if_pos h, hasKeyC_map_overwrite]
    exact h
  · rw [if_neg h, hasKeyC_append]
    simp [hasKeyC]

theorem hasKeyC_insertC_mono (c : Cache) (k k' : String) (v : List ℚ)
    (h : hasKeyC c k' = true) :
    hasKeyC (insertC c k v) k' = true := by
  unfold insertC
  by_cases hk : hasKeyC c k = true
  · rw [if_pos hk, hasKeyC_map_overwrite]
    exact h
  · rw [if_neg hk, hasKeyC_append, h]
    rfl

theorem hasKeyC_foldl_insert_mono (l : List (String × List ℚ)) (c : Cache)
    (k : String) (h : hasKeyC c k = true) :
    hasKeyC (l.foldl (fun c p => insertC c p.1 p.2) c) k = true := by
  induction l generalizing c with
  | nil => exact h
  | cons a t ih => exact ih _ (hasKeyC_insertC_mono c a.1 k a.2 h)

theorem hasKeyC_foldl_zip_insert (ks : List String) (vs : List (List ℚ))
    (c : Cache) (k : String) (hk : k ∈ ks) (hlen : ks.length ≤ vs.length) :
    hasKeyC ((ks.zip vs).foldl (fun c p => insertC c p.1 p.2) c) k = true := by
  induction ks generalizing vs c with
  | nil => simp at hk
  | cons a t ih =>
    cases vs with
    | nil => simp at hlen
    | cons v vt =>
      rw [show (a :: t).zip (v :: vt) = (a, v) :: t.zip vt from rfl,
        List.foldl_cons]
      rcases List.mem_cons.mp hk with rfl | hmem
      · exact hasKeyC_foldl_insert_mono _ _ _ (hasKeyC_insertC_self c k v)
      · exact ih vt _ hmem (by simpa using Nat.le_of_succ_le_succ hlen)

/-- C9: the fill never recomputes a posting whose identity is already a
cache key, and a successful fill leaves nothing to compute, so a second
fill over the same catalog with the resulting cache consults no provider at
all (it returns the cache unchanged for EVERY provider env2) — the
length hypothesis is the provider contract that a successful batch returns
one vector per requested text. -/
theorem c9_cache_fill_idempotent :
    ∀ (env env2 : Env) (ins : List Dict) (ex : Option Cache) (c : Cache),
    (∀ ds vs, env.embed_documents ds = some vs → vs.length = ds.length) →
    precompute_doc_embeddings_new env ins ex = .ok c →
    (∀ d ∈ ins, hasKeyC (ex.getD []) (get_internship_id d) = true →
      get_internship_id d ∉
        (toCompute ins (ex.getD [])).map (fun p => p.1)) ∧
    toCompute ins c = [] ∧
    precompute_doc_embeddings_new env2 ins (some c) = .ok c := by
  intro env env2 ins ex c hlen hfirst
  have parta : ∀ d ∈ ins,
      hasKeyC (ex.getD []) (get_internship_id d) = true →
      get_internship_id d ∉
        (toCompute ins (ex.getD [])).map (fun p => p.1) := by
    intro d hd hkey hmem
    rw [List.mem_map] at hmem
    obtain ⟨p, hp, hid⟩ := hmem
    unfold toCompute at hp
    rw [List.mem_filterMap] at hp
    obtain ⟨d2, _, hf⟩ := hp
    dsimp only at hf
    split_ifs at hf with h1 h2
    obtain rfl := Option.some.inj hf
    dsimp only at hid
    exact h1 (hid.symm ▸ hkey)
  have partb : toCompute ins c = [] := by
    unfold precompute_doc_embeddings_new at hfirst
    by_cases hins : ins = []
    · subst hins
      rfl
    · rw [if_neg (by simpa [List.isEmpty_iff] using hins)] at hfirst
      by_cases htodo : toCompute ins (ex.getD []) = []
      · simp only [htodo, List.isEmpty_nil, if_true, Except.ok.injEq] at hfirst
        rw [← hfirst]
        exact htodo
      · simp only [(show (toCompute ins (ex.getD [])).isEmpty = false by
          simpa [List.isEmpty_iff] using htodo), Bool.false_eq_true,
          if_false] at hfirst
        cases hd : env.embed_documents
            ((toCompute ins (ex.getD [])).map (fun p => p.2)) with
        | none =>
          rw [hd] at hfirst
          exact Except.noConfusion hfirst
        | some vecs =>
          rw [hd] at hfirst
          simp only [Except.ok.injEq] at hfirst
          have hvl : (toCompute ins (ex.getD [])).length ≤ vecs.length := by
            rw [hlen _ _ hd, List.length_map]
          unfold toCompute
          rw [List.filterMap_eq_nil_iff]
          intro d hd2
          dsimp only
          split_ifs with h1 h2
          · rfl
          · exfalso
            apply h1
            rw [← hfirst]
            by_cases hk0 : hasKeyC (ex.getD []) (get_internship_id d) = true
            · exact hasKeyC_foldl_insert_mono _ _ _ hk0
            · apply hasKeyC_foldl_zip_insert
              · rw [List.mem_map]
                refine ⟨(get_internship_id d, get_internship_text d), ?_, rfl⟩
                unfold toCompute
                rw [List.mem_filterMap]
                refine ⟨d, hd2, ?_⟩
                dsimp only
                rw [if_neg hk0, if_pos h2]
              · rw [List.length_map]
                exact hvl
          · rfl
  have partc : precompute_doc_embeddings_new env2 ins (some c) = .ok c := by
    unfold precompute_doc_embeddings_new
    by_cases hins : ins = []
    · subst hins
      rfl
    · rw [if_neg (by simpa [List.isEmpty_iff] using hins)]
      simp only [Option.getD_some, partb, List.isEmpty_nil, if_true]
  exact ⟨parta, partb, partc⟩

/-- C9 witness: a concrete catalog of one posting; the first fill with a
working provider yields the complete cache, and the second fill returns it
unchanged even under a provider whose every call fails — zero provider
calls. -/
theorem c9_witness_concrete :
    (∀ d ∈ [pNoId],
      hasKeyC ((none : Option Cache).getD []) (get_internship_id d) = true →
      get_internship_id d ∉
        (toCompute [pNoId] ((none : Option Cache).getD [])).map
          (fun p => p.1)) ∧
    toCompute [pNoId] cNoId = [] ∧
    precompute_doc_embeddings_new envFail [pNoId] (some cNoId) = .ok cNoId :=
  c9_cache_fill_idempotent envW envFail [pNoId] none cNoId
    (by
      intro ds vs h
      simp only [envW, Option.some.injEq] at h
      subst h
      simp)
    (by rfl)

/-! ## C8: the cache refresh check -/

/-- A snapshot where the catalog hash matches the recorded hash and the
catalog itself is non-empty. -/
def fsMatch : FSView :=
  { current_hash := some "h", meta_hash := some "h",
    catalog := [pNoId], stored := [] }

def cacheK : Cache := [("k", [1])]

/-- A snapshot where the catalog file is unreadable: its hash is None, the
embeddings metadata records no hash (also None), and the catalog loads
empty. -/
def fsUnreadable : FSView :=
  { current_hash := none, meta_hash := none, catalog := [], stored := cacheK }

/-- C8 counterexample: (1) with matching hashes and cached values that are
present but EMPTY, the function still returns them unchanged with
refreshed=false — the code checks `is not None`, not non-emptiness, so
"exactly when ... both non-empty" fails; (2) with an unreadable catalog
(hash None, which equals an absent recorded hash) and a non-empty cached
pair, it returns the non-empty cached data, not empty postings/vectors. -/
theorem c8_counterexample_presence_not_nonempty :
    (check_and_update_embeddings envW fsMatch (some []) (some []) =
        .ok ([], [], false) ∧
      fsMatch.catalog ≠ []) ∧
    (check_and_update_embeddings envW fsUnreadable (some [pNoId])
        (some cacheK) = .ok ([pNoId], cacheK, false) ∧
      fsUnreadable.current_hash = none ∧ fsUnreadable.catalog = []) := by
  refine ⟨⟨by rfl, ?_⟩, by rfl, rfl, rfl⟩
  exact List.cons_ne_nil pNoId []

/-- C8 (amended): the cached pair is returned unchanged with
refreshed=false whenever the current catalog hash equals the recorded hash
and both cached values are PRESENT (is not None — presence, not
non-emptiness, is what the code checks; an unreadable catalog hashes to
None and compares equal to an absent recorded hash, so the early return can
fire then too); when the early return does not apply and the catalog loads
empty or is unreadable, empty postings and vectors are returned with
refreshed=false. -/
theorem c8_refresh_early_return_and_empty_catalog :
    ∀ (env : Env) (fs : FSView) (ci : Option (List Dict)) (ce : Option Cache),
    (fs.current_hash = fs.meta_hash → ci.isSome → ce.isSome →
      check_and_update_embeddings env fs ci ce =
        .ok (ci.getD [], ce.getD [], false)) ∧
    (¬ (fs.current_hash = fs.meta_hash ∧ ci.isSome = true ∧
        ce.isSome = true) →
      fs.catalog = [] →
      check_and_update_embeddings env fs ci ce = .ok ([], [], false)) := by
  intro env fs ci ce
  constructor
  · intro h1 h2 h3
    unfold check_and_update_embeddings
    rw [if_pos ⟨h1, h2, h3⟩]
  · intro h1 h2
    unfold check_and_update_embeddings
    rw [if_neg h1, if_pos (by simpa [List.isEmpty_iff] using h2)]

/-! ## Shared structure of fallback results (used by C10, C6) -/

/-- The score a returned record carries (0 when absent, which does not
occur for the records the two rankers build). -/
def resultScore (r : Dict) : ℚ :=
  match getVal r "score" with
  | some (.vNum x) => x
  | _ => 0

theorem resultScore_finalizeEntry (en : ScoreEntry) :
    resultScore (finalizeEntry en) = en.score := by
  unfold resultScore finalizeEntry
  rw [getVal_eraseVal_ne _ _ _ (by decide),
    getVal_setVal_ne _ _ _ _ (by decide), getVal_setVal_self]

theorem resultScore_fallbackFinalize (p : ℚ × Dict) :
    resultScore (fallbackFinalize p) = p.1 := by
  unfold resultScore fallbackFinalize
  rw [getVal_eraseVal_ne _ _ _ (by decide),
    getVal_setVal_ne _ _ _ _ (by decide), getVal_setVal_self]

theorem fallbackFinalize_getVals (p : ℚ × Dict) :
    getVal (fallbackFinalize p) "embedding" = none ∧
    getVal (fallbackFinalize p) "score" = some (.vNum p.1) ∧
    getVal (fallbackFinalize p) "match_details" =
      some (.vDict (fallbackDetails p.1)) := by
  refine ⟨getVal_eraseVal_self _ _, ?_, ?_⟩
  · unfold fallbackFinalize
    rw [getVal_eraseVal_ne _ _ _ (by decide),
      getVal_setVal_ne _ _ _ _ (by decide), getVal_setVal_self]
  · unfold fallbackFinalize
    rw [getVal_eraseVal_ne _ _ _ (by decide), getVal_setVal_self]

/-- Membership in the fallback survivor list, unpacked: the posting is a
catalog posting with a non-empty embedding whose similarity computed to a
value above 0.4. -/
theorem mem_fallbackSurvivors (env : Env) (q : List ℚ) (ins : List Dict)
    (p : ℚ × Dict) (hp : p ∈ fallbackSurvivors env q ins) :
    p.2 ∈ ins ∧ p.1 > 2/5 ∧ getVecD p.2 "embedding" ≠ [] ∧
      env.cos_sim q (getVecD p.2 "embedding") = some p.1 := by
  unfold fallbackSurvivors at hp
  rw [List.mem_filterMap] at hp
  obtain ⟨d, hd, hf⟩ := hp
  dsimp only at hf
  by_cases he : (getVecD d "embedding").isEmpty
  · rw [if_pos he] at hf
    exact Option.noConfusion hf
  · rw [if_neg he] at hf
    cases hcos : env.cos_sim q (getVecD d "embedding") with
    | none =>
      rw [hcos] at hf
      exact Option.noConfusion hf
    | some sim =>
      rw [hcos] at hf
      dsimp only at hf
      by_cases hs : sim > 2/5
      · rw [if_pos hs] at hf
        obtain rfl := Option.some.inj hf
        exact ⟨hd, hs, by simpa [List.isEmpty_iff] using he, hcos⟩
      · rw [if_neg hs] at hf
        exact Option.noConfusion hf

/-- Every index argsort emits indexes a survivor whose similarity is the
sorted entry's score component. -/
theorem argsort_entry_facts (env : Env) (q : List ℚ) (ins : List Dict)
    (pr : ℕ × ℚ)
    (hpr : pr ∈ List.insertionSort idxRel
      ((fallbackSurvivors env q ins).map (fun p => p.1)).enum) :
    pr.1 < (fallbackSurvivors env q ins).length ∧
    ((fallbackSurvivors env q ins).getD pr.1 (0, [])) ∈
      fallbackSurvivors env q ins ∧
    ((fallbackSurvivors env q ins).getD pr.1 (0, [])).1 = pr.2 := by
  have h1 : pr ∈ ((fallbackSurvivors env q ins).map (fun p => p.1)).enum :=
    ((List.perm_insertionSort _ _).mem_iff).mp hpr
  rw [List.mem_enum_iff_getElem?] at h1
  rw [List.getElem?_eq_some_iff] at h1
  obtain ⟨hlt, hval⟩ := h1
  rw [List.length_map] at hlt
  have hgd : (fallbackSurvivors env q ins).getD pr.1 (0, []) =
      (fallbackSurvivors env q ins)[pr.1] :=
    List.getD_eq_getElem _ _ hlt
  refine ⟨hlt, ?_, ?_⟩
  · rw [hgd]
    exact List.getElem_mem hlt
  · rw [hgd, ← hval, List.getElem_map]

/-- Every fallback result is the finalization of some survivor. -/
theorem fallback_mem (env : Env) (ins : List Dict) (e s l : String)
    (k : ℤ) (q : List ℚ)
    (hq : env.embed_query (fallbackQuery e s) = some q) (r : Dict)
    (hr : r ∈ semantic_fallback_recommendation env ins e s l k) :
    ∃ p, p ∈ fallbackSurvivors env q ins ∧ r = fallbackFinalize p := by
  unfold semantic_fallback_recommendation at hr
  rw [hq] at hr
  by_cases hp : (fallbackSurvivors env q ins).isEmpty
  · simp only [hp, if_true] at hr
    simp at hr
  · simp only [(show (fallbackSurvivors env q ins).isEmpty = false by
      simpa using hp), Bool.false_eq_true, if_false] at hr
    rw [List.mem_map] at hr
    obtain ⟨i, hi, rfl⟩ := hr
    rw [List.mem_reverse] at hi
    have hi2 := List.mem_of_mem_drop hi
    unfold argsortAsc at hi2
    rw [List.mem_map] at hi2
    obtain ⟨pr, hpr, rfl⟩ := hi2
    obtain ⟨_, hmem, _⟩ := argsort_entry_facts env q ins pr hpr
    exact ⟨_, hmem, rfl⟩

/-! ## C10: the rankers build their results from copies of the inputs -/

/-- C10: every record either ranker returns is a fresh record obtained from
one of the input postings by attaching a score, attaching match_details and
removing the embedding key (Python: mutate a .copy(), never the input); in
this pure model the inputs are values, so they keep their embedding field
and gain no keys, and the theorem pins the returned records to the
copy-transform shape. -/
theorem c10_results_are_transformed_copies :
    ∀ (env : Env) (ins : List Dict) (e s l : String) (k : ℤ),
    (∀ r ∈ recommend env ins e s l k, ∃ d, d ∈ ins ∧ ∃ sc : ℚ, ∃ det : Dict,
      r = eraseVal (setVal (setVal d "score" (.vNum sc))
        "match_details" (.vDict det)) "embedding") ∧
    (∀ r ∈ semantic_fallback_recommendation env ins e s l k, ∃ d, d ∈ ins ∧
      ∃ sc : ℚ, ∃ det : Dict,
      r = eraseVal (setVal (setVal d "score" (.vNum sc))
        "match_details" (.vDict det)) "embedding") := by
  intro env ins e s l k
  have hfall : ∀ (e2 s2 l2 : String) (k2 : ℤ),
      ∀ r ∈ semantic_fallback_recommendation env ins e2 s2 l2 k2,
      ∃ d, d ∈ ins ∧ ∃ sc : ℚ, ∃ det : Dict,
      r = eraseVal (setVal (setVal d "score" (.vNum sc))
        "match_details" (.vDict det)) "embedding" := by
    intro e2 s2 l2 k2 r hr
    cases hq : env.embed_query (fallbackQuery e2 s2) with
    | none =>
      rw [fallback_embed_fail env ins e2 s2 l2 k2 hq] at hr
      simp at hr
    | some q =>
      obtain ⟨p, hp, rfl⟩ := fallback_mem env ins e2 s2 l2 k2 q hq r hr
      obtain ⟨hd, _, _, _⟩ := mem_fallbackSurvivors env q ins p hp
      exact ⟨p.2, hd, p.1, fallbackDetails p.1, rfl⟩
  constructor
  · intro r hr
    by_cases hins : ins = []
    · subst hins
      rw [show recommend env [] e s l k = [] from rfl] at hr
      simp at hr
    · by_cases hsr : skillFilter (normStr s) ins = []
      · rw [recommend_fallback_eq env ins e s l k hins hsr] at hr
        exact hfall _ _ _ _ r hr
      · cases hq : env.embed_query
            (primaryQuery (normStr e) (normStr s) (normStr l)) with
        | none =>
          rw [recommend_primary_embed_fail env ins e s l k hsr hq] at hr
          simp at hr
        | some q =>
          rw [recommend_primary_eq env ins e s l k q hsr hq] at hr
          obtain ⟨en, hen, rfl⟩ := List.mem_map.mp hr
          have h2 : en ∈ primaryEntries env q (normStr e) (normStr l)
              (skillFilter (normStr s) ins) :=
            ((List.perm_insertionSort _ _).mem_iff).mp (List.mem_of_mem_take hen)
          rw [primaryEntries_eq] at h2
          obtain ⟨p, hp, rfl⟩ := List.mem_map.mp h2
          have hd : p.1 ∈ (skillFilter (normStr s) ins).map Prod.fst :=
            List.mem_map.mpr ⟨p, hp, rfl⟩
          rw [skillFilter_map_fst] at hd
          exact ⟨p.1, (List.mem_filter.mp hd).1, _, _, rfl⟩
  · exact hfall e s l k

/-! ## C5: primary-path score composition, ordering and stability -/

/-- The boosted score, written out: similarity plus education boost 0.25,
0.30 per exact match, 0.15 times min(partial, 3), and 0.08 for a location
match. -/
theorem boostedEntry_score (e l : String) (base : ℚ) (d : Dict)
    (rd : RelData) :
    (boostedEntry e l base d rd).score = base +
      ((if eduMatch (pyLower (getStrD d "required_education" ""))
          (pyLower e) = true then (1 : ℚ)/4 else 0) +
       (3/10) * rd.exact_matches + (3/20) * (min rd.part_matches 3) +
       (if locMatch (pyLower l) (pyLower (getStrD d "location" "")) = true
          then (2 : ℚ)/25 else 0)) := rfl

theorem pairwise_map_of_mem {α : Type} {β : Type} {S : α → α → Prop}
    {R : β → β → Prop} {f : α → β} :
    ∀ {l : List α}, List.Pairwise S l →
    (∀ a ∈ l, ∀ b ∈ l, S a b → R (f a) (f b)) →
    List.Pairwise R (l.map f) := by
  intro l
  induction l with
  | nil =>
    intro _ _
    exact List.Pairwise.nil
  | cons a t ih =>
    intro hp h
    obtain ⟨ha, hp2⟩ := List.pairwise_cons.mp hp
    rw [List.map_cons]
    refine List.Pairwise.cons ?_ (ih hp2 (fun x hx y hy hxy =>
      h x (List.mem_cons_of_mem _ hx) y (List.mem_cons_of_mem _ hy) hxy))
    intro b2 hb2
    obtain ⟨b, hb, rfl⟩ := List.mem_map.mp hb2
    exact h a (List.mem_cons_self _ _) b (List.mem_cons_of_mem _ hb) (ha b hb)

/-- What C5 asserts of one ranking call whose gate admitted something and
whose query embedding succeeded with vector q: every result's score is its
semantic similarity (0.0 for a missing/empty embedding or a failed
similarity computation) plus the education/skill/location boosts; results
are ordered by descending final score; and the sort is stable (an in-order
pair of entries with the earlier one scoring at least the later one
survives into the sorted list as an in-order pair, so ties keep encounter
order). -/
def C5Holds (env : Env) (ins : List Dict) (e s l : String) (k : ℤ)
    (q : List ℚ) : Prop :=
  (∀ r ∈ recommend env ins e s l k,
    ∃ p, p ∈ skillFilter (normStr s) ins ∧
      r = finalizeEntry (boostedEntry (normStr e) (normStr l)
        (semanticScore env q p.1) p.1 p.2) ∧
      resultScore r = semanticScore env q p.1 +
        ((if eduMatch (pyLower (getStrD p.1 "required_education" ""))
            (pyLower (normStr e)) = true then (1 : ℚ)/4 else 0) +
         (3/10) * p.2.exact_matches + (3/20) * (min p.2.part_matches 3) +
         (if locMatch (pyLower (normStr l))
            (pyLower (getStrD p.1 "location" "")) = true
          then (2 : ℚ)/25 else 0))) ∧
  (∀ d : Dict, getVecD d "embedding" = [] → semanticScore env q d = 0) ∧
  (∀ d : Dict, env.cos_sim q (getVecD d "embedding") = none →
    semanticScore env q d = 0) ∧
  List.Pairwise (fun a b => resultScore b ≤ resultScore a)
    (recommend env ins e s l k) ∧
  (∀ a b : ScoreEntry, b.score ≤ a.score →
    [a, b].Sublist (primaryEntries env q (normStr e) (normStr l)
      (skillFilter (normStr s) ins)) →
    [a, b].Sublist (List.insertionSort scoreRel
      (primaryEntries env q (normStr e) (normStr l)
        (skillFilter (normStr s) ins))))

/-- C5: score composition, descending order and stable ties on the
primary path. -/
theorem c5_primary_score_order_stability (env : Env) (ins : List Dict)
    (e s l : String) (k : ℤ) (q : List ℚ)
    (hsr : skillFilter (normStr s) ins ≠ [])
    (hq : env.embed_query (primaryQuery (normStr e) (normStr s) (normStr l)) =
      some q) :
    C5Holds env ins e s l k q := by
  refine ⟨?_, ?_, ?_, ?_, ?_⟩
  · intro r hr
    rw [recommend_primary_eq env ins e s l k q hsr hq] at hr
    obtain ⟨en, hen, rfl⟩ := List.mem_map.mp hr
    have h2 : en ∈ primaryEntries env q (normStr e) (normStr l)
        (skillFilter (normStr s) ins) :=
      ((List.perm_insertionSort _ _).mem_iff).mp (List.mem_of_mem_take hen)
    rw [primaryEntries_eq] at h2
    obtain ⟨p, hp, rfl⟩ := List.mem_map.mp h2
    refine ⟨p, hp, rfl, ?_⟩
    rw [resultScore_finalizeEntry, boostedEntry_score]
  · intro d h
    simp [semanticScore, h]
  · intro d hcos
    simp [semanticScore, hcos]
  · rw [recommend_primary_eq env ins e s l k q hsr hq]
    apply List.pairwise_map.mpr
    have hsorted : List.Pairwise scoreRel (List.insertionSort scoreRel
        (primaryEntries env q (normStr e) (normStr l)
          (skillFilter (normStr s) ins))) :=
      List.sorted_insertionSort scoreRel _
    have htake := List.Pairwise.sublist
      (List.take_sublist
        ((min (clampTopK k) (((skillFilter (normStr s) ins).length : ℤ))).toNat)
        (List.insertionSort scoreRel (primaryEntries env q (normStr e)
          (normStr l) (skillFilter (normStr s) ins))))
      hsorted
    exact htake.imp (fun {a b} h => by
      rw [resultScore_finalizeEntry, resultScore_finalizeEntry]
      exact h)
  · intro a b hab hsub
    exact List.pair_sublist_insertionSort hab hsub

/-- C5 witness: the concrete one-posting catalog, where the single result
scores cosine 1/2 plus the 0.30 exact-skill boost. -/
theorem c5_witness_concrete : C5Holds envW [pPython] "" "python" "" 5 [1] :=
  c5_primary_score_order_stability envW [pPython] "" "python" "" 5 [1]
    (List.length_pos.mp (by decide))
    (by rfl)

/-! ## C6: the fallback ranker -/

theorem fallback_res_empty (env : Env) (ins : List Dict) (e s l : String)
    (k : ℤ) (q : List ℚ)
    (hq : env.embed_query (fallbackQuery e s) = some q)
    (hp : fallbackSurvivors env q ins = []) :
    semantic_fallback_recommendation env ins e s l k = [] := by
  unfold semantic_fallback_recommendation
  rw [hq]
  simp [hp]

/-- The fallback result, as the reversed top tail of the stable ascending
sort of the indexed survivor similarities. -/
theorem fallback_res_eq (env : Env) (ins : List Dict) (e s l : String)
    (k : ℤ) (q : List ℚ)
    (hq : env.embed_query (fallbackQuery e s) = some q)
    (hp : fallbackSurvivors env q ins ≠ []) :
    semantic_fallback_recommendation env ins e s l k =
      (((List.insertionSort idxRel
          ((fallbackSurvivors env q ins).map (fun p => p.1)).enum).drop
        ((fallbackSurvivors env q ins).length -
          (min k ((fallbackSurvivors env q ins).length : ℤ)).toNat)).reverse).map
        (fun pr => fallbackFinalize
          ((fallbackSurvivors env q ins).getD pr.1 (0, []))) := by
  unfold semantic_fallback_recommendation
  rw [hq]
  simp only [(show (fallbackSurvivors env q ins).isEmpty = false by
    simpa [List.isEmpty_iff] using hp), Bool.false_eq_true, if_false]
  unfold argsortAsc
  rw [← List.map_drop, ← List.map_reverse, List.map_map]
  rfl

/-- What C6 asserts of one fallback call whose query embedded to q: empty
result when no posting survives the 0.4 cutoff; otherwise
min(top_k, survivors) results; every result is a finalized survivor —
similarity above 0.4, embedding stripped, score and match_details attached
(the fallback match_details zero the skill/education/location fields and
set fallback_recommendation) — in descending similarity order, and the
returned similarities are a top-slice of the survivor similarities: every
non-returned survivor similarity is at most every returned one. -/
def C6Holds (env : Env) (ins : List Dict) (e s l : String) (k : ℤ)
    (q : List ℚ) : Prop :=
  (fallbackSurvivors env q ins = [] →
    semantic_fallback_recommendation env ins e s l k = []) ∧
  (fallbackSurvivors env q ins ≠ [] →
    (semantic_fallback_recommendation env ins e s l k).length =
      (min k ((fallbackSurvivors env q ins).length : ℤ)).toNat) ∧
  (∀ r ∈ semantic_fallback_recommendation env ins e s l k,
    ∃ p, p ∈ fallbackSurvivors env q ins ∧ p.2 ∈ ins ∧ p.1 > 2/5 ∧
      env.cos_sim q (getVecD p.2 "embedding") = some p.1 ∧
      r = fallbackFinalize p ∧ getVal r "embedding" = none ∧
      getVal r "score" = some (.vNum p.1) ∧
      getVal r "match_details" = some (.vDict (fallbackDetails p.1))) ∧
  List.Pairwise (fun a b => resultScore b ≤ resultScore a)
    (semantic_fallback_recommendation env ins e s l k) ∧
  ((↑((semantic_fallback_recommendation env ins e s l k).map resultScore) :
      Multiset ℚ) ≤
    (↑((fallbackSurvivors env q ins).map (fun p => p.1)) : Multiset ℚ)) ∧
  (∀ x ∈ (semantic_fallback_recommendation env ins e s l k).map resultScore,
    ∀ y ∈ ((↑((fallbackSurvivors env q ins).map (fun p => p.1)) :
        Multiset ℚ) -
      (↑((semantic_fallback_recommendation env ins e s l k).map resultScore) :
        Multiset ℚ)), y ≤ x)

/-- C6: the fallback ranker returns empty on a failed query embedding or
when no posting clears the 0.4 similarity cutoff, and otherwise returns the
min(top_k, survivors) highest-similarity survivors, descending, finalized
with the fallback match_details and the embedding stripped. -/
theorem c6_fallback_ranking :
    ∀ (env : Env) (ins : List Dict) (e s l : String) (k : ℤ),
    (env.embed_query (fallbackQuery e s) = none →
      semantic_fallback_recommendation env ins e s l k = []) ∧
    (∀ q, env.embed_query (fallbackQuery e s) = some q →
      C6Holds env ins e s l k q) := by
  intro env ins e s l k
  refine ⟨fallback_embed_fail env ins e s l k, ?_⟩
  intro q hq
  by_cases hp : fallbackSurvivors env q ins = []
  · have hres := fallback_res_empty env ins e s l k q hq hp
    refine ⟨fun _ => hres, fun hne => absurd hp hne, ?_, ?_, ?_, ?_⟩
    · intro r hr
      rw [hres] at hr
      simp at hr
    · rw [hres]
      exact List.Pairwise.nil
    · rw [hres]
      simp
    · intro x hx
      rw [hres] at hx
      simp at hx
  · have hlen2 : (semantic_fallback_recommendation env ins e s l k).length =
        (min k ((fallbackSurvivors env q ins).length : ℤ)).toNat := by
      rw [fallback_length env ins e s l k q hq,
        if_neg (by simpa [List.isEmpty_iff] using hp)]
    have hres := fallback_res_eq env ins e s l k q hq hp
    have hsorted : List.Pairwise idxRel (List.insertionSort idxRel
        (((fallbackSurvivors env q ins).map (fun p => p.1)).enum)) :=
      List.sorted_insertionSort idxRel _
    have hsel : (semantic_fallback_recommendation env ins e s l k).map
          resultScore =
        (((List.insertionSort idxRel
            (((fallbackSurvivors env q ins).map (fun p => p.1)).enum)).drop
          ((fallbackSurvivors env q ins).length -
            (min k ((fallbackSurvivors env q ins).length : ℤ)).toNat)).reverse).map
          Prod.snd := by
      rw [hres, List.map_map]
      apply List.map_congr_left
      intro pr hpr
      have hM := List.mem_of_mem_drop (List.mem_reverse.mp hpr)
      obtain ⟨_, _, hval⟩ := argsort_entry_facts env q ins pr hM
      show resultScore (fallbackFinalize
        ((fallbackSurvivors env q ins).getD pr.1 (0, []))) = pr.2
      rw [resultScore_fallbackFinalize]
      exact hval
    have hMperm : ((List.insertionSort idxRel
          (((fallbackSurvivors env q ins).map (fun p => p.1)).enum)).map
        Prod.snd).Perm ((fallbackSurvivors env q ins).map (fun p => p.1)) := by
      have := (List.perm_insertionSort idxRel
        (((fallbackSurvivors env q ins).map (fun p => p.1)).enum)).map Prod.snd
      rwa [List.enum_map_snd] at this
    have hsplit : (↑((fallbackSurvivors env q ins).map (fun p => p.1)) :
          Multiset ℚ) =
        ↑(((List.insertionSort idxRel
            (((fallbackSurvivors env q ins).map (fun p => p.1)).enum)).take
          ((fallbackSurvivors env q ins).length -
            (min k ((fallbackSurvivors env q ins).length : ℤ)).toNat)).map
              Prod.snd) +
        ↑(((List.insertionSort idxRel
            (((fallbackSurvivors env q ins).map (fun p => p.1)).enum)).drop
          ((fallbackSurvivors env q ins).length -
            (min k ((fallbackSurvivors env q ins).length : ℤ)).toNat)).map
              Prod.snd) := by
      rw [Multiset.coe_add, ← List.map_append, List.take_append_drop]
      exact (Multiset.coe_eq_coe.mpr hMperm).symm
    have hselm : (↑((semantic_fallback_recommendation env ins e s l k).map
          resultScore) : Multiset ℚ) =
        ↑(((List.insertionSort idxRel
            (((fallbackSurvivors env q ins).map (fun p => p.1)).enum)).drop
          ((fallbackSurvivors env q ins).length -
            (min k ((fallbackSurvivors env q ins).length : ℤ)).toNat)).map
              Prod.snd) := by
      rw [hsel]
      exact Multiset.coe_eq_coe.mpr ((List.reverse_perm _).map Prod.snd)
    refine ⟨fun h => absurd h hp, fun _ => hlen2, ?_, ?_, ?_, ?_⟩
    · intro r hr
      obtain ⟨p, hpmem, rfl⟩ := fallback_mem env ins e s l k q hq r hr
      obtain ⟨hd, hgt, _, hcos⟩ := mem_fallbackSurvivors env q ins p hpmem
      obtain ⟨h1, h2, h3⟩ := fallbackFinalize_getVals p
      exact ⟨p, hpmem, hd, hgt, hcos, rfl, h1, h2, h3⟩
    · rw [hres]
      have hdrop := List.Pairwise.sublist
        (List.drop_sublist
          ((fallbackSurvivors env q ins).length -
            (min k ((fallbackSurvivors env q ins).length : ℤ)).toNat)
          (List.insertionSort idxRel
            (((fallbackSurvivors env q ins).map (fun p => p.1)).enum)))
        hsorted
      have hrev := List.pairwise_reverse.mpr hdrop
      apply pairwise_map_of_mem hrev
      intro a ha b hb hba
      have haM := List.mem_of_mem_drop (List.mem_reverse.mp ha)
      have hbM := List.mem_of_mem_drop (List.mem_reverse.mp hb)
      obtain ⟨_, _, hva⟩ := argsort_entry_facts env q ins a haM
      obtain ⟨_, _, hvb⟩ := argsort_entry_facts env q ins b hbM
      show resultScore (fallbackFinalize
          ((fallbackSurvivors env q ins).getD b.1 (0, []))) ≤
        resultScore (fallbackFinalize
          ((fallbackSurvivors env q ins).getD a.1 (0, [])))
      rw [resultScore_fallbackFinalize, resultScore_fallbackFinalize, hva, hvb]
      exact hba
    · rw [hselm, hsplit]
      exact Multiset.le_add_left _ _
    · intro x hx y hy
      rw [hsel] at hx
      obtain ⟨prx, hprx, rfl⟩ := List.mem_map.mp hx
      have hprx2 := List.mem_reverse.mp hprx
      rw [hselm, hsplit, add_tsub_cancel_right] at hy
      rw [Multiset.mem_coe] at hy
      obtain ⟨pry, hpry, rfl⟩ := List.mem_map.mp hy
      have hglue : List.Pairwise idxRel
          ((List.insertionSort idxRel
            (((fallbackSurvivors env q ins).map (fun p => p.1)).enum)).take
            ((fallbackSurvivors env q ins).length -
              (min k ((fallbackSurvivors env q ins).length : ℤ)).toNat) ++
          (List.insertionSort idxRel
            (((fallbackSurvivors env q ins).map (fun p => p.1)).enum)).drop
            ((fallbackSurvivors env q ins).length -
              (min k ((fallbackSurvivors env q ins).length : ℤ)).toNat)) := by
        rw [List.take_append_drop]
        exact hsorted
      obtain ⟨_, _, hcross⟩ := List.pairwise_append.mp hglue
      exact hcross pry hpry prx hprx2

end PMRec
